import Mathlib

/-
Verification of the morango sync-core models (src/morango/models.py) against
their natural-language specification.

The Python module is a schema skeleton plus a handful of small methods.  We
shallowly embed it:

* Python field values become the inductive `Value` (strings, integers,
  booleans and None).
* Python dicts keyed by strings become association lists (`Dict`) built
  exclusively with `dictSet`, which has Python assignment semantics
  (replace the existing binding in place, otherwise append).
* A Django model instance becomes `Instance`, a dict from field attname to
  value; the concrete-field metadata of a model class becomes `Entity`.
* Methods with side effects are modelled by explicit state passing; a Python
  method that falls off the end (or returns the result of such a call)
  returns None, which we model with `Option`.

Operations that the spec describes but the source file only declares schema
for (the store-record merge algorithm, the watermark advance, certificate
validation) are modelled from the spec; each such definition carries a doc
comment starting with "Modelled from the spec:".
-/

namespace Morango

/-- A Python value as it appears in serialized model payloads. -/
inductive Value where
  | str (s : String)
  | int (n : Int)
  | bool (b : Bool)
  | null
deriving DecidableEq, Repr

/-- A Python dict from string keys to values, as an association list with
unique keys maintained by `dictSet`. -/
abbrev Dict := List (String × Value)

/-- Lookup of a key in a dict (first binding; `dictSet` keeps keys unique). -/
def dictGet (d : Dict) (k : String) : Option Value :=
  match d with
  | [] => none
  | (k₂, v) :: rest => if k₂ = k then some v else dictGet rest k

/-- Python dict assignment `d[k] = v`: replace the existing binding for `k`
in place if present, otherwise append the new binding. -/
def dictSet (d : Dict) (k : String) (v : Value) : Dict :=
  match d with
  | [] => [(k, v)]
  | (k₂, v₂) :: rest => if k₂ = k then (k, v) :: rest else (k₂, v₂) :: dictSet rest k v

/-- Django field metadata used by `serialize`/`deserialize`: `name`,
`attname` (the column attribute name, e.g. `name + "_id"` for foreign keys)
and the `editable` flag. -/
structure FieldDesc where
  name : String
  attname : String
  editable : Bool
deriving DecidableEq, Repr

/-- The per-class metadata a `SyncableModel` subclass carries: its concrete
fields (`cls._meta.concrete_fields`), its registered morango model name
(`_morango_model_name`), and its optional override of `get_shard_indices`
(the duck-typed override point of the source). -/
structure Entity where
  concrete_fields : List FieldDesc
  morango_model_name : String
  shard_indices_impl : Option (Dict → Dict)

/-- A model instance: a mapping from field attname to current value
(`f.value_from_object(self)` reads it; attribute assignment writes it). -/
structure Instance where
  values : Dict
deriving DecidableEq, Repr

/-- `f.value_from_object(self)`: the instance's current value of field `f`. -/
def value_from_object (r : Instance) (f : FieldDesc) : Value :=
  (dictGet r.values f.attname).getD Value.null

/-- Python truthiness of an optional-list parameter with default `None`:
`None` and the empty list are falsy. -/
def pyTruthy (l : Option (List String)) : Bool :=
  match l with
  | none => false
  | some xs => !xs.isEmpty

/-- Python `name in l` for an optional list (only consulted when truthy). -/
def listHas (l : Option (List String)) (name : String) : Bool :=
  match l with
  | none => false
  | some xs => xs.contains name

/-- The body of the `serialize` loop for one field `f`: skip if not
editable, skip if an include list is given and `f.name` is not in it, skip
if an exclude list is given and `f.name` is in it, otherwise write
`data[f.attname] = f.value_from_object(self)`. -/
def serializeStep (r : Instance) (fields exclude : Option (List String))
    (data : Dict) (f : FieldDesc) : Dict :=
  if !f.editable then data
  else if pyTruthy fields && !listHas fields f.name then data
  else if pyTruthy exclude && listHas exclude f.name then data
  else dictSet data f.attname (value_from_object r f)

/-- `SyncableModel.serialize(self, fields=None, exclude=None)`: fold the
loop over `opts.concrete_fields` starting from the empty dict, then set
`data["model"] = self._morango_model_name`. -/
def serialize (e : Entity) (r : Instance) (fields exclude : Option (List String)) : Dict :=
  dictSet (e.concrete_fields.foldl (serializeStep r fields exclude) [])
    "model" (Value.str e.morango_model_name)

/-- The state effect of `SyncableModel.save(self, set_dirty_bit=True)`:
when `set_dirty_bit` is true it sets `self._dirty_bit = True`, then
delegates to the superclass save (persistence, out of scope here). -/
def save (set_dirty_bit : Bool) (r : Instance) : Instance :=
  if set_dirty_bit then { values := dictSet r.values "_dirty_bit" (Value.bool true) }
  else r

/-- A call `r.save(set_dirty_bit)` as an expression: the pair of the
post-state of `r` and the call's Python value.  The method body ends
without a `return` statement, so the call evaluates to None. -/
def save_call (set_dirty_bit : Bool) (r : Instance) : Instance × Option Instance :=
  (save set_dirty_bit r, none)

/-- Setting each keyword argument on a row, in order (the effect of
`super().update(**kwargs)` on one affected record). -/
def applyKwargs (r : Instance) (kwargs : Dict) : Instance :=
  { values := kwargs.foldl (fun vs kv => dictSet vs kv.1 kv.2) r.values }

/-- `SyncableModelQuerySet.update(self, **kwargs)`: first
`kwargs.update(\x7b"_dirty_bit": True\x7d)` overwrites any caller-supplied
`_dirty_bit` with `True`, then the underlying bulk update applies the
kwargs to every affected record. -/
def update (kwargs : Dict) (records : List Instance) : List Instance :=
  let kwargs₂ := dictSet kwargs "_dirty_bit" (Value.bool true)
  records.map (fun r => applyKwargs r kwargs₂)

/-- The kwargs built by the `deserialize` loop: for each concrete field `f`
of the class, if `f.attname` is a key of the parsed payload, copy its value
(`kwargs[f.attname] = dict_model[f.attname]`).  All other payload entries,
including the `"model"` type tag, are ignored. -/
def deserializeKwargs (e : Entity) (dict_model : Dict) : Dict :=
  e.concrete_fields.foldl
    (fun kwargs f =>
      match dictGet dict_model f.attname with
      | some v => dictSet kwargs f.attname v
      | none => kwargs)
    []

/-- The instance `cls(**kwargs)` built by `deserialize`. -/
def deserializeConstructed (e : Entity) (dict_model : Dict) : Instance :=
  { values := deserializeKwargs e dict_model }

/-- `SyncableModel.deserialize(cls, json_model)` modelled on the parsed
payload dict (in the source the argument is a JSON string put through
`json.loads`; note that `serialize` returns a dict, not a string).  The
method returns `cls(**kwargs).save()` — the value of the `save()` call,
which is None, not the constructed record. -/
def deserialize (e : Entity) (dict_model : Dict) : Option Instance :=
  (save_call true (deserializeConstructed e dict_model)).2

/-!
Store records and the causal counter map

`AbstractStoreModel` declares the schema: `id`, `serialized`, `deleted`,
`version`, `history`, `last_saved_instance`, `last_saved_counter` and
`last_saved_counter_per_instance` (the RMC).  Instance identifiers (UUIDs
in the source) are modelled as naturals; the RMC, a JSON dict serialized
into a text column, is modelled as an association list from instance id to
counter, with an absent key meaning counter 0.
-/

/-- The record max counter map: instance id to highest counter from that
instance already folded into the record. -/
abbrev RMC := List (Nat × Nat)

/-- The counter an RMC records for an instance; an absent key means 0. -/
def rmcGet (m : RMC) (k : Nat) : Nat :=
  match m with
  | [] => 0
  | (k₂, v) :: rest => if k₂ = k then v else rmcGet rest k

/-- Set the entry of an instance in an RMC (replace in place or append). -/
def rmcSet (m : RMC) (k : Nat) (v : Nat) : RMC :=
  match m with
  | [] => [(k, v)]
  | (k₂, v₂) :: rest => if k₂ = k then (k, v) :: rest else (k₂, v₂) :: rmcSet rest k v

/-- The instance ids explicitly listed in an RMC. -/
def rmcKeys (m : RMC) : List Nat := m.map Prod.fst

/-- `rmcLe a b`: every entry of `a` is less than or equal to the
corresponding entry of `b` (`b` dominates `a`).  Checking the listed keys
of both maps suffices because absent keys read as 0. -/
def rmcLe (a b : RMC) : Bool :=
  (rmcKeys a ++ rmcKeys b).all (fun k => rmcGet a k ≤ rmcGet b k)

/-- The key-wise maximum of two RMCs, defined on the union of their keys. -/
def rmcMax (a b : RMC) : RMC :=
  ((rmcKeys a ++ rmcKeys b).dedup).map (fun k => (k, max (rmcGet a k) (rmcGet b k)))

/-- A row of `AbstractStoreModel` (hence of `StoreModel` and
`DataTransferBuffer`): the transferable wrapper around a syncable record's
serialized payload plus its causal metadata. -/
structure StoreRecord where
  id : String
  serialized : String
  deleted : Bool
  version : String
  history : String
  last_saved_instance : Nat
  last_saved_counter : Nat
  last_saved_counter_per_instance : RMC
deriving DecidableEq, Repr

/-- `SyncableModel.merge_conflict(cls, current, incoming)`: the default
conflict-resolution hook returns `incoming` unchanged. -/
def merge_conflict (current incoming : StoreRecord) : StoreRecord :=
  incoming

/-- Modelled from the spec: the store-record save step, which the source
only declares schema for.  On each local save producing a new version:
store the new payload and its content-derived version tag, append the
previous version tag to the history chain, set `last_saved_instance` to the
local instance id, `last_saved_counter` to the freshly allocated local
counter, and point the RMC entry of the local instance at that counter. -/
def saveStore (instance_id counter : Nat) (new_serialized new_version : String)
    (r : StoreRecord) : StoreRecord :=
  { r with
    serialized := new_serialized
    version := new_version
    history := r.history ++ "," ++ r.version
    last_saved_instance := instance_id
    last_saved_counter := counter
    last_saved_counter_per_instance :=
      rmcSet r.last_saved_counter_per_instance instance_id counter }

/-- Modelled from the spec: the merge algorithm applied when an incoming
store record for the same identity arrives, which the source only declares
schema for.  Compare the counter maps entry-by-entry: if the incoming map
dominates, adopt the incoming version wholesale (fast-forward); if the
local map dominates, keep the local version (the incoming one is already
known); otherwise a genuine conflict exists, the hook `merge_conflict`
resolves it (default: incoming wins) and the merged record carries the
key-wise maximum of both counter maps while `last_saved_instance` and
`last_saved_counter` stay those of the hook's result. -/
def mergeRecord (current incoming : StoreRecord) : StoreRecord :=
  if rmcLe current.last_saved_counter_per_instance incoming.last_saved_counter_per_instance then
    incoming
  else if rmcLe incoming.last_saved_counter_per_instance current.last_saved_counter_per_instance then
    current
  else
    let resolved := merge_conflict current incoming
    { resolved with
      last_saved_counter_per_instance :=
        rmcMax current.last_saved_counter_per_instance
          incoming.last_saved_counter_per_instance }

/-- The per-record invariant claimed by the spec: the counter map's entry
for the instance that produced the current version equals that version's
counter. -/
def rmcConsistent (r : StoreRecord) : Prop :=
  rmcGet r.last_saved_counter_per_instance r.last_saved_instance = r.last_saved_counter

instance (r : StoreRecord) : Decidable (rmcConsistent r) := by
  unfold rmcConsistent
  infer_instance

/-!
High-water-mark tracker
-/

/-- A row of `DatabaseMaxCounter`: per `(instance_id, filter)` key, the
highest counter already fully incorporated from that instance. -/
structure DatabaseMaxCounter where
  instance_id : Nat
  max_counter : Int
  filter : String
deriving DecidableEq, Repr

/-- Modelled from the spec: `advance_watermark(instance_id, filter,
new_counter)`, which the source only declares schema for.  The advance
must be monotonic: when `new_counter` is below the current recorded value
it is a no-op, otherwise the recorded value becomes `new_counter`. -/
def advance_watermark (rec : DatabaseMaxCounter) (new_counter : Int) : DatabaseMaxCounter :=
  if new_counter < rec.max_counter then rec
  else { rec with max_counter := new_counter }

/-!
Certificate trust chain
-/

/-- A row of `CertificateModel`: the signature (primary key), the issuer
foreign key (stored as the issuer's signature) and the certificate text. -/
structure CertificateModel where
  signature : String
  issuer : String
  certificate : String
deriving DecidableEq, Repr

/-- Lookup of a certificate row by its primary key. -/
def lookupCert (db : List CertificateModel) (sig : String) : Option CertificateModel :=
  match db with
  | [] => none
  | c :: rest => if c.signature = sig then some c else lookupCert rest sig

/-- A certificate is self-signed when its issuer foreign key points at
itself. -/
def selfSigned (c : CertificateModel) : Bool :=
  c.issuer = c.signature

/-- The certificate reached after following `k` issuer hops from `sig`
(stopping at a self-signed certificate or at a missing row). -/
def chainCert (db : List CertificateModel) (sig : String) : Nat → Option CertificateModel
  | 0 => lookupCert db sig
  | k + 1 =>
    match lookupCert db sig with
    | none => none
    | some c => if selfSigned c then none else chainCert db c.issuer k

/-- No certificate reachable from `sig` within `bound` hops is both
self-signed and present in the trust store. -/
def noTrustedRootWithin (db : List CertificateModel) (trust_store : List String)
    (sig : String) (bound : Nat) : Bool :=
  (List.range bound).all (fun k =>
    match chainCert db sig k with
    | none => true
    | some c => !(selfSigned c && trust_store.contains c.signature))

/-- Modelled from the spec: `validate(cert, trust_store)`, which the source
only declares schema for.  Walk the issuer references with a defensive hop
bound; at each hop the opaque crypto/scope check `hopOk` verifies the
certificate against its issuer (signature verification and scope
containment are consumed as an opaque capability).  The walk succeeds only
if, within the bound, it reaches a certificate that is self-signed and
present in the trust store; an exceeded bound, a missing issuer row or a
failed hop check makes it fail. -/
def validate (db : List CertificateModel) (trust_store : List String)
    (hopOk : CertificateModel → CertificateModel → Bool) :
    Nat → String → Bool
  | 0, _ => false
  | b + 1, sig =>
    match lookupCert db sig with
    | none => false
    | some c =>
      if selfSigned c then hopOk c c && trust_store.contains c.signature
      else
        match lookupCert db c.issuer with
        | none => false
        | some ic => hopOk c ic && validate db trust_store hopOk b c.issuer

/-- The errors raised by the embedded methods. -/
inductive MorangoError where
  | notImplementedErr (msg : String)
deriving DecidableEq, Repr

/-- `SyncableModel.get_shard_indices(self)`: if the entity type supplies its
own shard-index logic (a subclass override), dispatch to it; the base
implementation unconditionally raises via `NotImplemented` (the source line
is `raise NotImplemented("You must define a ...")`). -/
def get_shard_indices (e : Entity) (r : Instance) : Except MorangoError Dict :=
  match e.shard_indices_impl with
  | some impl => Except.ok (impl r.values)
  | none => Except.error (MorangoError.notImplementedErr
      "You must define a get_shard_indices method on models that inherit from SyncableModel.")

/-- The filter test a field must pass in the `serialize` loop, read off the
three `continue` guards: the field is editable, it is listed whenever an
include list is given, and it is not listed whenever an exclude list is
given. -/
def passesFilters (fields exclude : Option (List String)) (f : FieldDesc) : Bool :=
  f.editable
    && !(pyTruthy fields && !listHas fields f.name)
    && !(pyTruthy exclude && listHas exclude f.name)

/-- The last binding of a key in a dict viewed as a raw assignment list
(later assignments shadow earlier ones). -/
def lookupLast (d : Dict) (k : String) : Option Value :=
  match d with
  | [] => none
  | (k₂, v) :: rest =>
    match lookupLast rest k with
    | some w => some w
    | none => if k₂ = k then some v else none

/-!
Example fixtures used by the concrete witnesses and counterexamples
-/

/-- An editable field named and stored as `x`. -/
def fieldX : FieldDesc := { name := "x", attname := "x", editable := true }

/-- A minimal syncable entity type with the single field `x`, registered
model name `ex`, and no shard-index override. -/
def entX : Entity :=
  { concrete_fields := [fieldX], morango_model_name := "ex", shard_indices_impl := none }

/-- An instance of `entX` whose field `x` holds the integer 7. -/
def instX : Instance := { values := [("x", Value.int 7)] }

/-- A store record saved by instance 0 at counter 1, whose counter map also
reflects a later contribution (counter 5) from instance 1. -/
def storeL : StoreRecord :=
  { id := "r1", serialized := "pl", deleted := false, version := "v2", history := ""
    last_saved_instance := 0, last_saved_counter := 1
    last_saved_counter_per_instance := [(0, 1), (1, 5)] }

/-- A stale store record for the same identity, saved by instance 1 at
counter 3 and then relayed through instance 2 (counter 2). -/
def storeI : StoreRecord :=
  { id := "r1", serialized := "pi", deleted := false, version := "v3", history := ""
    last_saved_instance := 1, last_saved_counter := 3
    last_saved_counter_per_instance := [(0, 0), (1, 3), (2, 2)] }

/-- A watermark row at counter 5. -/
def dmcX : DatabaseMaxCounter := { instance_id := 0, max_counter := 5, filter := "p" }

/-- A two-certificate issuer cycle with no self-signed root. -/
def certDB : List CertificateModel :=
  [ { signature := "a", issuer := "b", certificate := "ca" },
    { signature := "b", issuer := "a", certificate := "cb" } ]

/-!
Dictionary lemmas
-/

theorem dictGet_dictSet_self (d : Dict) (k : String) (v : Value) :
    dictGet (dictSet d k v) k = some v := by
  induction d with
  | nil => simp [dictSet, dictGet]
  | cons kv rest ih =>
    obtain ⟨k₂, v₂⟩ := kv
    by_cases h : k₂ = k
    · simp [dictSet, dictGet, h]
    · simp [dictSet, dictGet, h, ih]

theorem dictGet_dictSet_ne (d : Dict) (k a : String) (v : Value) (h : a ≠ k) :
    dictGet (dictSet d k v) a = dictGet d a := by
  have h₀ : ¬(k = a) := fun hc => h hc.symm
  induction d with
  | nil => simp [dictSet, dictGet, h₀]
  | cons kv rest ih =>
    obtain ⟨k₂, v₂⟩ := kv
    by_cases h₂ : k₂ = k
    · subst h₂
      simp [dictSet, dictGet, h₀]
    · simp [dictSet, dictGet, h₂, ih]

theorem dictSet_dictSet_self (d : Dict) (k : String) (v w : Value) :
    dictSet (dictSet d k v) k w = dictSet d k w := by
  induction d with
  | nil => simp [dictSet]
  | cons kv rest ih =>
    obtain ⟨k₂, v₂⟩ := kv
    by_cases h : k₂ = k
    · simp [dictSet, h]
    · simp [dictSet, h, ih]

theorem lookupLast_of_not_mem (d : Dict) (k : String) (h : k ∉ d.map Prod.fst) :
    lookupLast d k = none := by
  induction d with
  | nil => rfl
  | cons kv rest ih =>
    obtain ⟨k₂, v₂⟩ := kv
    simp only [List.map_cons, List.mem_cons] at h
    push_neg at h
    simp [lookupLast, ih h.2, h.1.symm]

theorem lookupLast_dictSet_self (d : Dict) (k : String) (v : Value)
    (hnd : (d.map Prod.fst).Nodup) : lookupLast (dictSet d k v) k = some v := by
  induction d with
  | nil => simp [dictSet, lookupLast]
  | cons kv rest ih =>
    obtain ⟨k₂, v₂⟩ := kv
    simp only [List.map_cons, List.nodup_cons] at hnd
    by_cases h : k₂ = k
    · subst h
      simp [dictSet, lookupLast, lookupLast_of_not_mem rest k₂ hnd.1]
    · simp [dictSet, lookupLast, h, ih hnd.2]

theorem foldl_dictSet_get (l : Dict) (init : Dict) (k : String) :
    dictGet (l.foldl (fun vs kv => dictSet vs kv.1 kv.2) init) k =
      match lookupLast l k with
      | some v => some v
      | none => dictGet init k := by
  induction l generalizing init with
  | nil => rfl
  | cons kv rest ih =>
    obtain ⟨k₂, v₂⟩ := kv
    simp only [List.foldl_cons, lookupLast]
    rw [ih]
    cases hrest : lookupLast rest k with
    | some w => rfl
    | none =>
      by_cases h : k₂ = k
      · subst h
        simp [dictGet_dictSet_self]
      · simp [dictGet_dictSet_ne _ _ _ _ (fun hc => h hc.symm), h]

/-!
Counter-map lemmas
-/

theorem rmcGet_rmcSet_self (m : RMC) (k v : Nat) : rmcGet (rmcSet m k v) k = v := by
  induction m with
  | nil => simp [rmcSet, rmcGet]
  | cons kv rest ih =>
    obtain ⟨k₂, v₂⟩ := kv
    by_cases h : k₂ = k
    · simp [rmcSet, rmcGet, h]
    · simp [rmcSet, rmcGet, h, ih]

theorem rmcGet_of_not_mem (m : RMC) (k : Nat) (h : k ∉ rmcKeys m) : rmcGet m k = 0 := by
  induction m with
  | nil => rfl
  | cons kv rest ih =>
    obtain ⟨k₂, v₂⟩ := kv
    simp only [rmcKeys, List.map_cons, List.mem_cons, not_or] at h
    have hne : ¬(k₂ = k) := fun hc => h.1 hc.symm
    simp only [rmcGet, if_neg hne]
    exact ih (by simpa [rmcKeys] using h.2)

theorem rmcLe_iff (a b : RMC) : rmcLe a b = true ↔ ∀ k, rmcGet a k ≤ rmcGet b k := by
  constructor
  · intro h k
    by_cases hk : k ∈ rmcKeys a
    · exact of_decide_eq_true (List.all_eq_true.mp h k (List.mem_append.mpr (Or.inl hk)))
    · rw [rmcGet_of_not_mem a k hk]
      exact Nat.zero_le _
  · intro h
    exact List.all_eq_true.mpr (fun k _ => decide_eq_true (h k))

theorem rmcLe_refl (a : RMC) : rmcLe a a = true :=
  (rmcLe_iff a a).mpr (fun _ => le_refl _)

theorem rmcGet_map_keys (ks : List Nat) (f : Nat → Nat) (a : Nat) :
    rmcGet (ks.map (fun k => (k, f k))) a = if a ∈ ks then f a else 0 := by
  induction ks with
  | nil => simp [rmcGet]
  | cons k rest ih =>
    by_cases h : k = a
    · subst h
      simp [rmcGet]
    · have hak : a ≠ k := fun hc => h hc.symm
      simp only [List.map_cons, rmcGet, if_neg h, ih, List.mem_cons]
      simp [hak]

theorem rmcGet_rmcMax (a b : RMC) (k : Nat) :
    rmcGet (rmcMax a b) k = max (rmcGet a k) (rmcGet b k) := by
  unfold rmcMax
  rw [rmcGet_map_keys]
  by_cases hk : k ∈ (rmcKeys a ++ rmcKeys b).dedup
  · rw [if_pos hk]
  · rw [if_neg hk]
    rw [List.mem_dedup, List.mem_append] at hk
    push_neg at hk
    rw [rmcGet_of_not_mem a k hk.1, rmcGet_of_not_mem b k hk.2]
    simp

/-!
Merge lemmas
-/

theorem mergeRecord_self (A : StoreRecord) : mergeRecord A A = A := by
  simp [mergeRecord, rmcLe_refl]

theorem mergeRecord_map_comm (A B : StoreRecord) (k : Nat) :
    rmcGet (mergeRecord A B).last_saved_counter_per_instance k =
      rmcGet (mergeRecord B A).last_saved_counter_per_instance k := by
  unfold mergeRecord merge_conflict
  cases hAB : rmcLe A.last_saved_counter_per_instance B.last_saved_counter_per_instance with
  | true =>
    cases hBA : rmcLe B.last_saved_counter_per_instance A.last_saved_counter_per_instance with
    | true =>
      simp only [hAB, hBA, if_true]
      exact le_antisymm ((rmcLe_iff _ _).mp hBA k) ((rmcLe_iff _ _).mp hAB k)
    | false => simp [hAB, hBA]
  | false =>
    cases hBA : rmcLe B.last_saved_counter_per_instance A.last_saved_counter_per_instance with
    | true => simp [hAB, hBA]
    | false =>
      simp only [hAB, hBA, Bool.false_eq_true, if_false]
      rw [rmcGet_rmcMax, rmcGet_rmcMax]
      exact Nat.max_comm _ _

/-!
Serialize-loop lemmas
-/

theorem serializeStep_eq (r : Instance) (fields exclude : Option (List String))
    (data : Dict) (f : FieldDesc) :
    serializeStep r fields exclude data f =
      if passesFilters fields exclude f then
        dictSet data f.attname (value_from_object r f)
      else data := by
  unfold serializeStep passesFilters
  cases f.editable <;>
    cases pyTruthy fields && !listHas fields f.name <;>
      cases pyTruthy exclude && listHas exclude f.name <;> simp

theorem serializeLoop_get_notin (r : Instance) (fields exclude : Option (List String))
    (fs : List FieldDesc) (d : Dict) (a : String) (hf : ∀ f ∈ fs, f.attname ≠ a) :
    dictGet (fs.foldl (serializeStep r fields exclude) d) a = dictGet d a := by
  induction fs generalizing d with
  | nil => rfl
  | cons g fs ih =>
    simp only [List.foldl_cons]
    rw [ih _ (fun f hm => hf f (List.mem_cons_of_mem g hm))]
    rw [serializeStep_eq]
    by_cases hp : passesFilters fields exclude g
    · rw [if_pos hp, dictGet_dictSet_ne _ _ _ _ (fun hc => hf g (List.mem_cons_self g fs) hc.symm)]
    · rw [if_neg hp]

theorem serializeLoop_get_mem (r : Instance) (fields exclude : Option (List String))
    (fs : List FieldDesc) (d : Dict) (f : FieldDesc) (hmem : f ∈ fs)
    (hnd : (fs.map FieldDesc.attname).Nodup) :
    dictGet (fs.foldl (serializeStep r fields exclude) d) f.attname =
      if passesFilters fields exclude f then some (value_from_object r f)
      else dictGet d f.attname := by
  induction fs generalizing d with
  | nil => exact absurd hmem (List.not_mem_nil f)
  | cons g fs ih =>
    simp only [List.map_cons, List.nodup_cons] at hnd
    rcases List.mem_cons.mp hmem with hfg | hmem₂
    · subst hfg
      simp only [List.foldl_cons]
      have hrest : ∀ f₂ ∈ fs, f₂.attname ≠ f.attname := by
        intro f₂ hm hc
        exact hnd.1 (hc ▸ List.mem_map_of_mem FieldDesc.attname hm)
      rw [serializeLoop_get_notin r fields exclude fs _ _ hrest, serializeStep_eq]
      by_cases hp : passesFilters fields exclude f
      · rw [if_pos hp, if_pos hp, dictGet_dictSet_self]
      · rw [if_neg hp, if_neg hp]
    · simp only [List.foldl_cons]
      rw [ih (serializeStep r fields exclude d g) hmem₂ hnd.2]
      have hga : g.attname ≠ f.attname := by
        intro hc
        exact hnd.1 (hc ▸ List.mem_map_of_mem FieldDesc.attname hmem₂)
      rw [serializeStep_eq]
      by_cases hpg : passesFilters fields exclude g
      · rw [if_pos hpg, dictGet_dictSet_ne _ _ _ _ (fun hc => hga hc.symm)]
      · rw [if_neg hpg]

/-!
Deserialize-loop lemmas
-/

theorem deserializeLoop_get_notin (dm : Dict) (fs : List FieldDesc) (kwargs : Dict)
    (a : String) (hf : ∀ f ∈ fs, f.attname ≠ a) :
    dictGet (fs.foldl
      (fun kwargs f =>
        match dictGet dm f.attname with
        | some v => dictSet kwargs f.attname v
        | none => kwargs) kwargs) a = dictGet kwargs a := by
  induction fs generalizing kwargs with
  | nil => rfl
  | cons g fs ih =>
    simp only [List.foldl_cons]
    rw [ih _ (fun f hm => hf f (List.mem_cons_of_mem g hm))]
    cases dictGet dm g.attname with
    | none => rfl
    | some v =>
      exact dictGet_dictSet_ne _ _ _ _ (fun hc => hf g (List.mem_cons_self g fs) hc.symm)

theorem deserializeLoop_congr (d : Dict) (kT : String) (v : Value) (fs : List FieldDesc)
    (h : ∀ f ∈ fs, f.attname ≠ kT) (kwargs : Dict) :
    fs.foldl
      (fun kwargs f =>
        match dictGet (dictSet d kT v) f.attname with
        | some w => dictSet kwargs f.attname w
        | none => kwargs) kwargs =
    fs.foldl
      (fun kwargs f =>
        match dictGet d f.attname with
        | some w => dictSet kwargs f.attname w
        | none => kwargs) kwargs := by
  induction fs generalizing kwargs with
  | nil => rfl
  | cons g fs ih =>
    simp only [List.foldl_cons]
    rw [dictGet_dictSet_ne d kT g.attname v (h g (List.mem_cons_self g fs))]
    exact ih (fun f hm => h f (List.mem_cons_of_mem g hm)) _

/-!
Watermark lemmas
-/

theorem advance_watermark_le (rec : DatabaseMaxCounter) (n : Int) :
    rec.max_counter ≤ (advance_watermark rec n).max_counter := by
  unfold advance_watermark
  by_cases h : n < rec.max_counter
  · rw [if_pos h]
  · rw [if_neg h]
    exact le_of_not_lt h

theorem watermark_foldl_le (ns : List Int) (rec : DatabaseMaxCounter) :
    rec.max_counter ≤ (ns.foldl advance_watermark rec).max_counter := by
  induction ns generalizing rec with
  | nil => exact le_refl _
  | cons n ns ih =>
    exact le_trans (advance_watermark_le rec n) (ih (advance_watermark rec n))

/-!
Certificate-chain lemmas
-/

theorem noTrustedRoot_head (db : List CertificateModel) (ts : List String) (sig : String)
    (b : Nat) (c : CertificateModel) (h : noTrustedRootWithin db ts sig (b + 1) = true)
    (hc : lookupCert db sig = some c) :
    selfSigned c = false ∨ c.signature ∉ ts := by
  have h0 := List.all_eq_true.mp h 0 (List.mem_range.mpr (Nat.succ_pos b))
  simp only [chainCert, hc] at h0
  simpa using h0

theorem noTrustedRoot_shift (db : List CertificateModel) (ts : List String) (sig : String)
    (b : Nat) (c : CertificateModel) (h : noTrustedRootWithin db ts sig (b + 1) = true)
    (hc : lookupCert db sig = some c) (hns : selfSigned c = false) :
    noTrustedRootWithin db ts c.issuer b = true := by
  unfold noTrustedRootWithin at h ⊢
  rw [List.all_eq_true] at h ⊢
  intro k hk
  have hk₂ : k + 1 ∈ List.range (b + 1) :=
    List.mem_range.mpr (Nat.succ_lt_succ (List.mem_range.mp hk))
  have := h (k + 1) hk₂
  simpa [chainCert, hc, hns] using this

/-!
Claim theorems
-/

/-- C1 counterexample: two store records, each individually satisfying the
invariant that the counter map's entry for `last_saved_instance` equals
`last_saved_counter` (and each producible by a save), whose conflict merge
yields a record violating that invariant: the key-wise maximum lifts the
winning side's own entry (to 5) above its `last_saved_counter` (3). -/
theorem C1_counterexample :
    rmcConsistent storeL ∧ rmcConsistent storeI ∧
      ¬ rmcConsistent (mergeRecord storeL storeI) := by
  decide

/-- C1 (amended): after any save, `counter_map[last_saved_instance]` equals
`last_saved_counter`; after a merge of two records satisfying the
invariant, the entry is greater than or equal to `last_saved_counter`
(equality can fail only in the conflict branch, where the key-wise maximum
may exceed the adopted side's counter). -/
theorem C1_counter_map_invariant (current incoming r : StoreRecord) (iid ctr : Nat)
    (s v : String) (hc : rmcConsistent current) (hi : rmcConsistent incoming) :
    rmcConsistent (saveStore iid ctr s v r) ∧
    (mergeRecord current incoming).last_saved_counter ≤
      rmcGet (mergeRecord current incoming).last_saved_counter_per_instance
        (mergeRecord current incoming).last_saved_instance := by
  constructor
  · unfold rmcConsistent saveStore
    exact rmcGet_rmcSet_self _ _ _
  · unfold mergeRecord merge_conflict
    by_cases hAB : rmcLe current.last_saved_counter_per_instance
        incoming.last_saved_counter_per_instance = true
    · rw [if_pos hAB]
      exact le_of_eq hi.symm
    · rw [if_neg hAB]
      by_cases hBA : rmcLe incoming.last_saved_counter_per_instance
          current.last_saved_counter_per_instance = true
      · rw [if_pos hBA]
        exact le_of_eq hc.symm
      · rw [if_neg hBA]
        simp only
        rw [rmcGet_rmcMax]
        exact le_trans (le_of_eq hi.symm) (le_max_right _ _)

/-- C1 witness: the amended statement holds at the concrete fixture
records. -/
theorem C1_counter_map_invariant_witness :
    rmcConsistent (saveStore 0 1 "p" "v9" storeL) ∧
    (mergeRecord storeL storeI).last_saved_counter ≤
      rmcGet (mergeRecord storeL storeI).last_saved_counter_per_instance
        (mergeRecord storeL storeI).last_saved_instance :=
  C1_counter_map_invariant storeL storeI storeL 0 1 "p" "v9" (by decide) (by decide)

/-- C2: the merge of store records is commutative on the counter map
(merging A with incoming B produces the same counter map, entry by entry,
as merging B with incoming A) and idempotent (merging a record with itself
adopts it unchanged, so a redelivered version is a no-op). -/
theorem C2_merge_commutative_idempotent :
    (∀ A B : StoreRecord, ∀ k : Nat,
      rmcGet (mergeRecord A B).last_saved_counter_per_instance k =
        rmcGet (mergeRecord B A).last_saved_counter_per_instance k) ∧
    (∀ A : StoreRecord, mergeRecord A A = A) :=
  ⟨mergeRecord_map_comm, mergeRecord_self⟩

/-- C3: `advance_watermark` is monotonic on the recorded `max_counter`: a
single advance never lowers it, an advance with a counter below the current
value is a no-op returning the row unchanged, and over any sequence of
advances the recorded value is non-decreasing. -/
theorem C3_watermark_monotonic (rec : DatabaseMaxCounter) (n : Int) :
    rec.max_counter ≤ (advance_watermark rec n).max_counter ∧
    (n < rec.max_counter → advance_watermark rec n = rec) ∧
    (∀ ns : List Int, rec.max_counter ≤ (ns.foldl advance_watermark rec).max_counter) := by
  refine ⟨advance_watermark_le rec n, ?_, fun ns => watermark_foldl_le ns rec⟩
  intro h
  unfold advance_watermark
  rw [if_pos h]

/-- C3 witness: advancing the fixture watermark (at 5) with counter 3 is a
no-op. -/
theorem C3_watermark_monotonic_witness :
    dmcX.max_counter ≤ (advance_watermark dmcX 3).max_counter ∧
      advance_watermark dmcX 3 = dmcX :=
  ⟨(C3_watermark_monotonic dmcX 3).1, (C3_watermark_monotonic dmcX 3).2.1 (by decide)⟩

/-- C4: certificate validation rejects unterminated chains: whenever no
certificate reachable from the starting signature within the hop bound is
both self-signed and present in the trust store (in particular for any
issuer cycle not terminating at a trusted self-signed root), `validate`
returns false. -/
theorem C4_validate_rejects_untrusted_chains (db : List CertificateModel)
    (ts : List String) (hopOk : CertificateModel → CertificateModel → Bool)
    (bound : Nat) (sig : String) (h : noTrustedRootWithin db ts sig bound = true) :
    validate db ts hopOk bound sig = false := by
  induction bound generalizing sig with
  | zero => rfl
  | succ b ih =>
    cases hlc : lookupCert db sig with
    | none => simp [validate, hlc]
    | some c =>
      cases hss : selfSigned c with
      | true =>
        rcases noTrustedRoot_head db ts sig b c h hlc with h₁ | h₁
        · rw [hss] at h₁
          exact Bool.noConfusion h₁
        · simp only [validate, hlc, hss]
          simp only [if_true]
          simp
          exact fun _ => h₁
      | false =>
        cases hlc₂ : lookupCert db c.issuer with
        | none => simp [validate, hlc, hss, hlc₂]
        | some ic =>
          have hrec := ih c.issuer (noTrustedRoot_shift db ts sig b c h hlc hss)
          simp [validate, hlc, hss, hlc₂, hrec]

/-- C4 witness: a two-certificate issuer cycle with an empty trust store
fails validation within a hop bound of 5. -/
theorem C4_validate_rejects_untrusted_chains_witness :
    noTrustedRootWithin certDB [] "a" 5 = true ∧
    validate certDB [] (fun _ _ => true) 5 "a" = false :=
  ⟨by decide, C4_validate_rejects_untrusted_chains certDB [] (fun _ _ => true) 5 "a" (by decide)⟩

/-- C5 (code bug): `deserialize` returns the value of
`cls(**kwargs).save()`, and Django's `save` returns None, so deserializing
a serialized record yields None instead of a record; the round trip
`serialize(deserialize(serialize(R)))` therefore cannot equal
`serialize(R)` (it has no record to serialize at all) — shown here by
evaluating the code at a concrete record. -/
theorem C5_roundtrip_broken : deserialize entX (serialize entX instX none none) = none :=
  rfl

/-- C6 counterexample: the field `x` of the fixture entity is editable and
is named in both the include list and the exclude list, yet `serialize`
omits it — the exclude guard runs after the include guard, so exclude wins,
refuting the claim that include wins. -/
theorem C6_include_exclude_counterexample :
    dictGet (serialize entX instX (some ["x"]) (some ["x"])) "x" = none := by
  decide

/-- C6 (amended): `serialize` returns exactly the editable fields permitted
by the filters — the payload always carries the `model` type tag; each
concrete field appears (under its attname) iff it is editable, listed in
the include list whenever one is given, and not listed in the exclude list
whenever one is given (so a field named in both lists is excluded: exclude
wins); and no other key appears. -/
theorem C6_serialize_exact_fields (e : Entity) (r : Instance)
    (fields exclude : Option (List String))
    (hnd : (e.concrete_fields.map FieldDesc.attname).Nodup)
    (hm : "model" ∉ e.concrete_fields.map FieldDesc.attname) :
    dictGet (serialize e r fields exclude) "model" =
      some (Value.str e.morango_model_name) ∧
    (∀ f ∈ e.concrete_fields,
      dictGet (serialize e r fields exclude) f.attname =
        if passesFilters fields exclude f then some (value_from_object r f) else none) ∧
    (∀ a : String, a ≠ "model" → (∀ f ∈ e.concrete_fields, f.attname ≠ a) →
      dictGet (serialize e r fields exclude) a = none) := by
  refine ⟨?_, ?_, ?_⟩
  · unfold serialize
    exact dictGet_dictSet_self _ _ _
  · intro f hf
    have hfa : f.attname ≠ "model" :=
      fun hc => hm (hc ▸ List.mem_map_of_mem FieldDesc.attname hf)
    unfold serialize
    rw [dictGet_dictSet_ne _ _ _ _ hfa]
    rw [serializeLoop_get_mem r fields exclude e.concrete_fields [] f hf hnd]
    rfl
  · intro a ha hfa
    unfold serialize
    rw [dictGet_dictSet_ne _ _ _ _ ha]
    rw [serializeLoop_get_notin r fields exclude e.concrete_fields [] a hfa]
    rfl

/-- C6 witness: serializing the fixture instance with include list
containing only `x` yields the type tag and the field value. -/
theorem C6_serialize_exact_fields_witness :
    dictGet (serialize entX instX (some ["x"]) none) "model" = some (Value.str "ex") ∧
    dictGet (serialize entX instX (some ["x"]) none) "x" = some (Value.int 7) := by
  have h := C6_serialize_exact_fields entX instX (some ["x"]) none (by decide) (by decide)
  exact ⟨h.1, h.2.1 fieldX (by simp [entX])⟩

/-- C7 counterexample: a payload whose `model` tag is `other`, against the
target type registered as `ex`, is not rejected: `deserialize` builds the
same record as it does for a matching tag, copies the field value, and the
record is saved (dirty bit set) — it is silently accepted, with no
TypeMismatch error anywhere in the code. -/
theorem C7_type_tag_ignored_counterexample :
    deserializeConstructed entX [("x", Value.int 7), ("model", Value.str "other")] =
      deserializeConstructed entX [("x", Value.int 7), ("model", Value.str "ex")] ∧
    dictGet (deserializeConstructed entX
      [("x", Value.int 7), ("model", Value.str "other")]).values "x" = some (Value.int 7) ∧
    dictGet (save_call true (deserializeConstructed entX
      [("x", Value.int 7), ("model", Value.str "other")])).1.values "_dirty_bit" =
      some (Value.bool true) := by
  decide

/-- C7 (amended): `deserialize` never inspects the type tag: as long as no
concrete field is stored under the attname `model`, the kwargs it builds
are unchanged by any rewrite of the payload's `model` entry, and the tag
never enters the constructed record — a mismatched payload is silently
accepted rather than rejected with a TypeMismatch error. -/
theorem C7_deserialize_ignores_type_tag (e : Entity) (d : Dict) (v : Value)
    (hm : "model" ∉ e.concrete_fields.map FieldDesc.attname) :
    deserializeKwargs e (dictSet d "model" v) = deserializeKwargs e d ∧
    dictGet (deserializeKwargs e d) "model" = none := by
  constructor
  · unfold deserializeKwargs
    exact deserializeLoop_congr d "model" v e.concrete_fields
      (fun f hf hc => hm (hc ▸ List.mem_map_of_mem FieldDesc.attname hf)) []
  · unfold deserializeKwargs
    rw [deserializeLoop_get_notin d e.concrete_fields [] "model"
      (fun f hf hc => hm (hc ▸ List.mem_map_of_mem FieldDesc.attname hf))]
    rfl

/-- C7 witness: the amended statement holds for the fixture entity and a
concrete payload. -/
theorem C7_deserialize_ignores_type_tag_witness :
    deserializeKwargs entX (dictSet [("x", Value.int 7)] "model" (Value.str "other")) =
      deserializeKwargs entX [("x", Value.int 7)] ∧
    dictGet (deserializeKwargs entX [("x", Value.int 7)]) "model" = none :=
  C7_deserialize_ignores_type_tag entX [("x", Value.int 7)] (Value.str "other") (by decide)

/-- C8: every mutating write sets the dirty flag: a per-instance save with
the default `set_dirty_bit=True` writes `_dirty_bit = True`, a save with
`set_dirty_bit=False` leaves the record untouched (the explicit opt-out),
and a bulk queryset update writes `_dirty_bit = True` on every affected
record. -/
theorem C8_writes_set_dirty_bit (r : Instance) (kwargs : Dict) (rs : List Instance)
    (r₂ : Instance) (hnd : (kwargs.map Prod.fst).Nodup) (hmem : r₂ ∈ update kwargs rs) :
    dictGet (save true r).values "_dirty_bit" = some (Value.bool true) ∧
    save false r = r ∧
    dictGet r₂.values "_dirty_bit" = some (Value.bool true) := by
  refine ⟨?_, rfl, ?_⟩
  · exact dictGet_dictSet_self r.values "_dirty_bit" (Value.bool true)
  · simp only [update] at hmem
    rcases List.mem_map.mp hmem with ⟨r₀, hr₀, hr₂⟩
    subst hr₂
    unfold applyKwargs
    rw [foldl_dictSet_get]
    rw [lookupLast_dictSet_self kwargs "_dirty_bit" (Value.bool true) hnd]

/-- C8 witness: the statement holds for the fixture instance and a bulk
update of a single empty record with no extra kwargs. -/
theorem C8_writes_set_dirty_bit_witness :
    dictGet (save true instX).values "_dirty_bit" = some (Value.bool true) ∧
    save false instX = instX ∧
    dictGet (Instance.mk [("_dirty_bit", Value.bool true)]).values "_dirty_bit" =
      some (Value.bool true) :=
  C8_writes_set_dirty_bit instX [] [Instance.mk []]
    (Instance.mk [("_dirty_bit", Value.bool true)]) (by decide) (by decide)

/-- C9: an entity type that does not supply its own shard-index logic gets
the base `get_shard_indices`, which unconditionally raises the
NotImplemented programming error and never returns a value. -/
theorem C9_get_shard_indices_not_implemented (e : Entity) (r : Instance)
    (he : e.shard_indices_impl = none) :
    get_shard_indices e r = Except.error (MorangoError.notImplementedErr
      "You must define a get_shard_indices method on models that inherit from SyncableModel.") ∧
    ∀ d : Dict, get_shard_indices e r ≠ Except.ok d := by
  have h₁ : get_shard_indices e r = Except.error (MorangoError.notImplementedErr
      "You must define a get_shard_indices method on models that inherit from SyncableModel.") := by
    unfold get_shard_indices
    rw [he]
  refine ⟨h₁, fun d hc => ?_⟩
  rw [h₁] at hc
  exact Except.noConfusion hc

/-- C9 witness: the fixture entity has no shard-index override, and its
`get_shard_indices` raises. -/
theorem C9_get_shard_indices_not_implemented_witness :
    get_shard_indices entX instX = Except.error (MorangoError.notImplementedErr
      "You must define a get_shard_indices method on models that inherit from SyncableModel.") :=
  (C9_get_shard_indices_not_implemented entX instX rfl).1

/-- C10: the bulk queryset update offers no dirty-bit opt-out: even when
the caller's kwargs explicitly bind `_dirty_bit` to False, the update
unconditionally overwrites that binding, and the value written on every
affected record is True. -/
theorem C10_update_no_dirty_bit_optout (kwargs : Dict) (rs : List Instance)
    (r₂ : Instance) (hnd : (kwargs.map Prod.fst).Nodup)
    (hmem : r₂ ∈ update (dictSet kwargs "_dirty_bit" (Value.bool false)) rs) :
    dictGet r₂.values "_dirty_bit" = some (Value.bool true) := by
  simp only [update] at hmem
  rw [dictSet_dictSet_self] at hmem
  rcases List.mem_map.mp hmem with ⟨r₀, hr₀, hr₂⟩
  subst hr₂
  unfold applyKwargs
  rw [foldl_dictSet_get]
  rw [lookupLast_dictSet_self kwargs "_dirty_bit" (Value.bool true) hnd]

/-- C10 witness: bulk-updating a single empty record with kwargs binding
`_dirty_bit` to False still writes True. -/
theorem C10_update_no_dirty_bit_optout_witness :
    dictGet (Instance.mk [("_dirty_bit", Value.bool true)]).values "_dirty_bit" =
      some (Value.bool true) :=
  C10_update_no_dirty_bit_optout [] [Instance.mk []]
    (Instance.mk [("_dirty_bit", Value.bool true)]) (by decide) (by decide)

end Morango
